import Mathlib

/-!
Verification development for FFcuesplitter's CUE-sheet handling core:
the timecode arithmetic (`pos_to_frames`), the filename `sanitize`
helper, the line-based sheet scanner and track-boundary resolver of
`cuesplitter.py` (`FFCueSplitter.cuefile_parser`,
`FFCueSplitter.make_end_positions_and_durations`,
`FFCueSplitter.command_building`), the context-based parser of
`cue_parser.py` (`Context`, `MetaContext`, `FileContext`,
`TrackContext`, `CueData`, `CueParser.run`) and the recipe builder of
`ffmpeg.py` (`FFMpeg.codec_setup`, `FFMpeg.commandargs`).

Python strings are modelled as `List Char`; Python dicts with string
keys as association lists; Python floats as exact rationals (`ℚ`);
raised exceptions as the `Except PyErr` monad.  Each definition mirrors
one Python function or method and is named after it where Lean allows.
-/

namespace FFcue

/-- Python runtime exceptions raised by the embedded code.  `parserError`
is the library's own `ParserError`; the others are builtin Python
exceptions (`KeyError`, `ValueError`, `IndexError`, `AttributeError`). -/
inductive PyErr where
  | keyError (k : String)
  | valueError
  | indexError
  | attributeError
  | parserError
  deriving DecidableEq

instance {ε α : Type} [DecidableEq ε] [DecidableEq α] : DecidableEq (Except ε α) :=
  fun x y =>
    match x, y with
    | .error a, .error b =>
      if h : a = b then isTrue (h ▸ rfl) else isFalse (fun hc => h (Except.error.inj hc))
    | .ok a, .ok b =>
      if h : a = b then isTrue (h ▸ rfl) else isFalse (fun hc => h (Except.ok.inj hc))
    | .error _, .ok _ => isFalse (fun hc => Except.noConfusion hc)
    | .ok _, .error _ => isFalse (fun hc => Except.noConfusion hc)

/-- Python `s.split(sep)` for a one-character separator: splits on every
occurrence, keeping empty fields (so `":a".split(":") = ["", "a"]`). -/
def pySplit (c : Char) : List Char → List (List Char)
  | [] => [[]]
  | a :: rest =>
    match pySplit c rest with
    | [] => [[a]]
    | g :: gs => if a = c then [] :: g :: gs else (a :: g) :: gs

/-- Decimal digit parsing used by `pyInt?` (the digits of a Python `int`
literal). -/
def pyDigits? (l : List Char) : Option Nat :=
  if l ≠ [] ∧ l.all Char.isDigit then
    some (l.foldl (fun n c => n * 10 + (c.toNat - 48)) 0)
  else none

/-- Both-ends strip, as Python `str.strip`: drops every leading and
trailing character satisfying `p`. -/
def pyStrip (p : Char → Bool) (l : List Char) : List Char :=
  ((l.dropWhile p).reverse.dropWhile p).reverse

/-- Python `int(s)` on a decimal string: optional surrounding whitespace,
optional sign, then digits; any other shape raises `ValueError` (here:
`none`). -/
def pyInt? (l : List Char) : Option Int :=
  match pyStrip Char.isWhitespace l with
  | '-' :: rest => (pyDigits? rest).map (fun n => -(n : Int))
  | '+' :: rest => (pyDigits? rest).map (fun n => (n : Int))
  | t => (pyDigits? t).map (fun n => (n : Int))

/-- Effectful map over `Option` (models evaluating `map(int, ...)`
eagerly, failing on the first non-integer field). -/
def opMapM {α β : Type} (f : α → Option β) : List α → Option (List β)
  | [] => some []
  | a :: rest =>
    match f a with
    | none => none
    | some b =>
      match opMapM f rest with
      | none => none
      | some bs => some (b :: bs)

/-- Python `s.split()` (no separator): splits on whitespace runs and
drops empty fields. -/
def pyWhSplit : List Char → List (List Char)
  | [] => []
  | a :: rest =>
    let r := pyWhSplit rest
    if a.isWhitespace then r
    else
      match rest with
      | [] => [[a]]
      | b :: _ =>
        if b.isWhitespace then [a] :: r
        else
          match r with
          | g :: gs => (a :: g) :: gs
          | [] => [[a]]

/-- Python `s.partition(c)` restricted to the two components the parser
uses: the text before the first occurrence of `c` and the text after it
(empty when `c` does not occur). -/
def pyPartition (c : Char) : List Char → List Char × List Char
  | [] => ([], [])
  | a :: rest =>
    if a = c then ([], rest)
    else
      let (x, y) := pyPartition c rest
      (a :: x, y)

/-- Python `s.rsplit(c, 1)` unpacked into two names: splits at the LAST
occurrence of `c`; `none` models the `ValueError` of unpacking a
one-element list when `c` is absent. -/
def pyRsplit1 (c : Char) (l : List Char) : Option (List Char × List Char) :=
  let r := l.reverse
  match r.findIdx? (· = c) with
  | some i => some (((r.drop (i + 1)).reverse), ((r.take i).reverse))
  | none => none

/-- The characters removed by `utils.sanitize` on Windows
(`re.sub(r"[\"\*\:\<\>\?\/\|\\]", '', ...)`). -/
def windowsIllegal : List Char := ['"', '*', ':', '<', '>', '?', '/', '|', '\\']

/-- Model of `utils.sanitize`: strip leading/trailing whitespace, then
leading/trailing dots; on Windows remove the illegal character set, on
other platforms remove `/`.  The `windows` flag stands for
`platform.system() == 'Windows'`. -/
def sanitize (windows : Bool) (string : String) : String :=
  let newstr := pyStrip (fun c => c == '.') (pyStrip Char.isWhitespace string.data)
  if windows then
    String.mk (newstr.filter (fun c => !(windowsIllegal.contains c)))
  else
    String.mk (newstr.filter (fun c => !(c == '/')))

/-- Model of `cue_parser.pos_to_frames`: converts a position `mm:ss:ff` into
frames via `((mm * 60) + ss) * 44100 + ff * (44100 // 75)`.  A string
that does not split into three integer fields raises `ValueError`. -/
def pos_to_frames (pos : List Char) : Except PyErr Int :=
  match opMapM pyInt? (pySplit ':' pos) with
  | some [minutes, seconds, frames] =>
      .ok (((minutes * 60) + seconds) * 44100 + frames * (44100 / 75))
  | _ => .error .valueError

/-- Model of `cuesplitter.pos_to_frames`: the same conversion but applied to a
whole `INDEX` sheet line — `pos.strip().split(' ')[2]` extracts the
timecode token first (third single-space-separated token). -/
def pos_to_frames_line (line : List Char) : Except PyErr Int :=
  match pySplit ' ' (pyStrip Char.isWhitespace line) with
  | _ :: _ :: x :: _ =>
    match opMapM pyInt? (pySplit ':' x) with
    | some [minutes, seconds, frames] =>
        .ok (((minutes * 60) + seconds) * 44100 + frames * (44100 / 75))
    | _ => .error .valueError
  | _ => .error .indexError

/-- One track dict of `FFCueSplitter.cuefile_parser` / resolver: every
key the code reads or writes, `none` when the key is absent.  `TRACK`,
`pre_gap` and `START` are set by the scanner; `END` and `DURATION` by
`make_end_positions_and_durations`. -/
structure CSTrack where
  TRACK : Option Int := none
  TITLE : Option (List Char) := none
  ARTIST : Option (List Char) := none
  ALBUM : Option (List Char) := none
  GENRE : Option (List Char) := none
  DATE : Option (List Char) := none
  COMMENT : Option (List Char) := none
  pre_gap : Option Int := none
  START : Option Int := none
  END : Option Int := none
  DURATION : Option ℚ := none
  deriving DecidableEq

/-- The per-index loop of `make_end_positions_and_durations`: for every
track but the last, compute `(START[i+1] - START[i]) / 44100` into the
`time` list and set `END[i]` — to `pre_gap[i+1]` when track `i` has a
`pre_gap` key, else to `START[i+1]`.  Missing dict keys raise
`KeyError`. -/
def endsAndTimes : List CSTrack → Except PyErr (List CSTrack × List ℚ)
  | [] => .ok ([], [])
  | [t] => .ok ([t], [])
  | t :: u :: rest =>
    match t.pre_gap with
    | some _ =>
      match u.START with
      | none => .error (.keyError "START")
      | some s1 =>
        match t.START with
        | none => .error (.keyError "START")
        | some s0 =>
          let trk : ℚ := ((s1 : ℚ) - (s0 : ℚ)) / 44100
          match u.pre_gap with
          | none => .error (.keyError "pre_gap")
          | some pg =>
            match endsAndTimes (u :: rest) with
            | .error e => .error e
            | .ok (ts, time) => .ok ({ t with END := some pg } :: ts, trk :: time)
    | none =>
      match u.START with
      | none => .error (.keyError "START")
      | some s1 =>
        match t.START with
        | none => .error (.keyError "START")
        | some s0 =>
          let trk : ℚ := ((s1 : ℚ) - (s0 : ℚ)) / 44100
          match endsAndTimes (u :: rest) with
          | .error e => .error e
          | .ok (ts, time) => .ok ({ t with END := some s1 } :: ts, trk :: time)

/-- Model of `FFCueSplitter.make_end_positions_and_durations`, with the probed
total duration (seconds) passed in place of the `ffprobe` call: after
the per-index loop, the last track's time is `duration - sum(time)` and
`zip(tracks, time)` stores every time as `DURATION`.  Arithmetic is
exact rational arithmetic in place of Python floats. -/
def make_end_positions_and_durations (tracks : List CSTrack) (duration : ℚ) :
    Except PyErr (List CSTrack) :=
  match endsAndTimes tracks with
  | .error e => .error e
  | .ok (ts, time) =>
    let last := duration - time.sum
    .ok (List.zipWith (fun t d => { t with DURATION := some d }) ts (time ++ [last]))

/-- List-level `l.startswith(pre)` used to model Python
`line.startswith(...)` guards. -/
def hasPre (pre l : List Char) : Bool := decide (l.take pre.length = pre)

/-- Python `line.split('"')[1]`: the text between the first pair of
double quotes; raises `IndexError` when the line holds no quote. -/
def quoteField1 (l : List Char) : Except PyErr (List Char) :=
  match pySplit '"' l with
  | _ :: x :: _ => .ok x
  | _ => .error .indexError

/-- Python `line.split()[2]`: third whitespace-separated token, raising
`IndexError` when missing (used for `REM DATE`). -/
def whToken2 (l : List Char) : Except PyErr (List Char) :=
  match pyWhSplit l with
  | _ :: _ :: x :: _ => .ok x
  | _ => .error .indexError

/-- Python `int(line.strip().split(' ')[1], 10)` of a `TRACK` sheet
line: second single-space-separated token of the stripped line, parsed
as a decimal integer. -/
def trackNumOf (l : List Char) : Except PyErr Int :=
  match pySplit ' ' (pyStrip Char.isWhitespace l) with
  | _ :: x :: _ =>
    match pyInt? x with
    | some n => .ok n
    | none => .error .valueError
  | _ => .error .indexError

/-- Python `tracks[-1] = f tracks[-1]` on a list: update the last
element, `none` models the `IndexError` of an empty list. -/
def updLast {α : Type} (f : α → α) : List α → Option (List α)
  | [] => none
  | [t] => some [f t]
  | t :: u :: rest => (updLast f (u :: rest)).map (fun r => t :: r)

/-- Simple model of Python `os.path.join(dirname, name)` for the
relative file names CUE sheets carry. -/
def pathJoin (dirname name : List Char) : List Char := dirname ++ '/' :: name

/-- Scanner state of `FFCueSplitter.cuefile_parser`: the `general` tag
dict (represented on the same fixed-key record as tracks), the track
dicts collected so far and `kwargs['FILE']`. -/
structure CFState where
  general : CSTrack := {}
  tracks : List CSTrack := []
  FILE : Option (List Char) := none
  deriving DecidableEq

/-- Sheet line guard `line.startswith('REM GENRE ')` with its effect
`general['GENRE'] = line.split('"')[1]`. -/
def cfGenre (line : List Char) (st : CFState) : Except PyErr CFState :=
  if hasPre "REM GENRE ".data line then
    (quoteField1 line).map
      (fun v => { st with general := { st.general with GENRE := some v } })
  else .ok st

/-- Sheet line guard `line.startswith('REM DATE ')` with its effect
`general['DATE'] = line.split()[2]`. -/
def cfDate (line : List Char) (st : CFState) : Except PyErr CFState :=
  if hasPre "REM DATE ".data line then
    (whToken2 line).map
      (fun v => { st with general := { st.general with DATE := some v } })
  else .ok st

/-- Sheet line guard `line.startswith('REM COMMENT ')`. -/
def cfComment (line : List Char) (st : CFState) : Except PyErr CFState :=
  if hasPre "REM COMMENT ".data line then
    (quoteField1 line).map
      (fun v => { st with general := { st.general with COMMENT := some v } })
  else .ok st

/-- Sheet line guard `line.startswith('PERFORMER ')` setting the album
artist. -/
def cfPerformer (line : List Char) (st : CFState) : Except PyErr CFState :=
  if hasPre "PERFORMER ".data line then
    (quoteField1 line).map
      (fun v => { st with general := { st.general with ARTIST := some v } })
  else .ok st

/-- Sheet line guard `line.startswith('TITLE ')` setting the album
title. -/
def cfTitle (line : List Char) (st : CFState) : Except PyErr CFState :=
  if hasPre "TITLE ".data line then
    (quoteField1 line).map
      (fun v => { st with general := { st.general with ALBUM := some v } })
  else .ok st

/-- Sheet line guard `line.startswith('FILE ')` recording
`kwargs['FILE'] = os.path.join(dirname, line.split('"')[1])`. -/
def cfFile (dirname line : List Char) (st : CFState) : Except PyErr CFState :=
  if hasPre "FILE ".data line then
    (quoteField1 line).map
      (fun v => { st with FILE := some (pathJoin dirname v) })
  else .ok st

/-- Sheet line guard `line.startswith('  TRACK ')` appending a copy of
`general` extended with the parsed track number. -/
def cfTrack (line : List Char) (st : CFState) : Except PyErr CFState :=
  if hasPre "  TRACK ".data line then
    (trackNumOf line).map
      (fun n => { st with tracks := st.tracks ++ [{ st.general with TRACK := some n }] })
  else .ok st

/-- Sheet line guard `line.startswith('    TITLE ')` updating
`tracks[-1]['TITLE']`. -/
def cfTrkTitle (line : List Char) (st : CFState) : Except PyErr CFState :=
  if hasPre "    TITLE ".data line then
    match quoteField1 line with
    | .error e => .error e
    | .ok v =>
      match updLast (fun t => { t with TITLE := some v }) st.tracks with
      | some ts => .ok { st with tracks := ts }
      | none => .error .indexError
  else .ok st

/-- Sheet line guard `line.startswith('    PERFORMER ')` updating
`tracks[-1]['ARTIST']`. -/
def cfTrkPerformer (line : List Char) (st : CFState) : Except PyErr CFState :=
  if hasPre "    PERFORMER ".data line then
    match quoteField1 line with
    | .error e => .error e
    | .ok v =>
      match updLast (fun t => { t with ARTIST := some v }) st.tracks with
      | some ts => .ok { st with tracks := ts }
      | none => .error .indexError
  else .ok st

/-- Sheet line guard `line.startswith('    INDEX 00 ')` recording the
pre-gap frame on `tracks[-1]`. -/
def cfTrkIndex00 (line : List Char) (st : CFState) : Except PyErr CFState :=
  if hasPre "    INDEX 00 ".data line then
    match pos_to_frames_line line with
    | .error e => .error e
    | .ok fr =>
      match updLast (fun t => { t with pre_gap := some fr }) st.tracks with
      | some ts => .ok { st with tracks := ts }
      | none => .error .indexError
  else .ok st

/-- Sheet line guard `line.startswith('    INDEX 01 ')` recording the
start frame on `tracks[-1]`. -/
def cfTrkIndex01 (line : List Char) (st : CFState) : Except PyErr CFState :=
  if hasPre "    INDEX 01 ".data line then
    match pos_to_frames_line line with
    | .error e => .error e
    | .ok fr =>
      match updLast (fun t => { t with START := some fr }) st.tracks with
      | some ts => .ok { st with tracks := ts }
      | none => .error .indexError
  else .ok st

/-- One loop iteration of `FFCueSplitter.cuefile_parser`: the eleven
`startswith` guards of the source applied in order (the guards are
mutually exclusive, so sequential threading is faithful to the
source's independent `if` statements). -/
def scanLine (dirname : List Char) (st : CFState) (line : List Char) :
    Except PyErr CFState :=
  cfGenre line st >>= cfDate line >>= cfComment line >>= cfPerformer line >>=
    cfTitle line >>= cfFile dirname line >>= cfTrack line >>= cfTrkTitle line >>=
    cfTrkPerformer line >>= cfTrkIndex00 line >>= cfTrkIndex01 line

/-- The scanning loop of `cuefile_parser` over all sheet lines. -/
def scanLinesFrom (dirname : List Char) (st : CFState) :
    List (List Char) → Except PyErr CFState
  | [] => .ok st
  | l :: ls =>
    match scanLine dirname st l with
    | .error e => .error e
    | .ok st1 => scanLinesFrom dirname st1 ls

/-- Model of `FFCueSplitter.cuefile_parser` with the probed duration passed as a
parameter: scan all lines, raise `ParserError` when no tracks were
collected, read `kwargs['FILE']` (a `KeyError` when no `FILE` line
occurred) and resolve via `make_end_positions_and_durations`. -/
def cuefileParser (dirname : List Char) (lines : List (List Char)) (duration : ℚ) :
    Except PyErr (List CSTrack) :=
  match scanLinesFrom dirname {} lines with
  | .error e => .error e
  | .ok st =>
    if st.tracks = [] then .error .parserError
    else
      match st.FILE with
      | none => .error (.keyError "FILE")
      | some _ => make_end_positions_and_durations st.tracks duration

/-- Python dict with string keys and string-or-`None` values, as used by
the metadata contexts of `cue_parser.py` (insertion order kept). -/
abbrev Assoc := List (List Char × Option (List Char))

/-- Python dict assignment `d[k] = v`: replace the value of an existing
key in place, else append the new pair. -/
def dictUpsert (d : Assoc) (k : List Char) (v : Option (List Char)) : Assoc :=
  match d with
  | [] => [(k, v)]
  | kv :: rest => if kv.1 = k then (k, v) :: rest else kv :: dictUpsert rest k v

/-- Python `d.get(k)` distinguishing a missing key (`none`) from a key
stored with value `None` (`some none`). -/
def dictGet (d : Assoc) (k : List Char) : Option (Option (List Char)) :=
  (d.find? (fun kv => decide (kv.1 = k))).map (fun kv => kv.2)

/-- Python `{**a, **b}`: entries of `a` then the entries of `b`, with
values of `b` overriding equal keys of `a`. -/
def dictMerge (a b : Assoc) : Assoc :=
  b.foldl (fun acc kv => dictUpsert acc kv.1 kv.2) a

/-- Model of `MetaContext._default` of `cue_parser.py`. -/
def metaDefault : Assoc :=
  [("ALBUM".data, some "Unknown".data),
   ("PERFORMER".data, some "Unknown".data),
   ("DATE".data, none)]

/-- Model of `TrackContext._default` of `cue_parser.py`. -/
def trackDefault : Assoc := [("TITLE".data, some "Unknown".data)]

/-- Model of `Context.add`: plain upsert of the given key. -/
def ctxAdd (d : Assoc) (k : List Char) (v : List Char) : Assoc :=
  dictUpsert d k (some v)

/-- Model of `MetaContext.add`: the key `TITLE` is remapped to `ALBUM`, all other
keys are upserted unchanged. -/
def metaAdd (d : Assoc) (k : List Char) (v : List Char) : Assoc :=
  if k = "TITLE".data then ctxAdd d "ALBUM".data v else ctxAdd d k v

/-- Model of `TrackContext` of `cue_parser.py`: number, data type, start frame
(0 until an `INDEX 01` command) and the metadata dict seeded from the
owning file's dict merged over `TrackContext._default`. -/
structure TrackCtx where
  num : Int
  dtype : List Char
  start : Int := 0
  data : Assoc
  deriving DecidableEq

/-- Model of `FileContext` of `cue_parser.py`: path, type tag, owned tracks in
sheet order and the metadata dict seeded from the creating context. -/
structure FileCtx where
  path : List Char
  ftype : List Char
  tracks : List TrackCtx := []
  data : Assoc
  deriving DecidableEq

/-- Which object `CueData._current_context` points at. -/
inductive Cur where
  | meta
  | file
  | track
  deriving DecidableEq

/-- Model of `CueData` of `cue_parser.py`.  `_current_file` is always the last
file of `files`, and `_current_track` the last track ever created, i.e.
the last track of the last file having tracks, so both are represented
by the list structure plus the `cur` tag. -/
structure CueData where
  meta : Assoc
  files : List FileCtx := []
  cur : Cur := .meta
  deriving DecidableEq

/-- The freshly constructed `CueData()`: a `MetaContext` seeded with
`{**_default, **deepcopy({})}`, no files, current context = meta. -/
def initCueData : CueData :=
  { meta := dictMerge metaDefault [], files := [], cur := .meta }

/-- Update the last element of a file list (Python mutation of the
`_current_file` object). -/
def updLastFile (g : FileCtx → FileCtx) : List FileCtx → List FileCtx
  | [] => []
  | [f] => [g f]
  | f :: f2 :: rest => f :: updLastFile g (f2 :: rest)

/-- The `_current_track` object: the most recently created track, i.e.
the last track of the last file that owns tracks. -/
def lastTrack? : List FileCtx → Option TrackCtx
  | [] => none
  | f :: rest =>
    match lastTrack? rest with
    | some t => some t
    | none => f.tracks.getLast?

/-- Mutation of the `_current_track` object inside the file list;
`none` when no track has been created yet. -/
def updLastTrack (g : TrackCtx → TrackCtx) : List FileCtx → Option (List FileCtx)
  | [] => none
  | f :: rest =>
    match updLastTrack g rest with
    | some rest1 => some (f :: rest1)
    | none =>
      match updLast g f.tracks with
      | some ts => some ({ f with tracks := ts } :: rest)
      | none => none

/-- The dict of `CueData._current_context` (the meta context, the last
file, or the last created track; the `getD` defaults are unreachable
because `cur` is only set to `.file`/`.track` when such an object
exists). -/
def currentData (s : CueData) : Assoc :=
  match s.cur with
  | .meta => s.meta
  | .file => ((s.files.getLast?).map (fun f => f.data)).getD []
  | .track => ((lastTrack? s.files).map (fun t => t.data)).getD []

/-- Model of `CueData.add_context`: `Context.add`/`MetaContext.add` on the
current context object. -/
def add_context (s : CueData) (k v : List Char) : CueData :=
  match s.cur with
  | .meta => { s with meta := metaAdd s.meta k v }
  | .file =>
    { s with files := updLastFile (fun f => { f with data := ctxAdd f.data k v }) s.files }
  | .track =>
    { s with
      files := (updLastTrack (fun t => { t with data := ctxAdd t.data k v }) s.files).getD s.files }

/-- Model of `CueData.add_file`: a new `FileContext` seeded with
`{**{}, **deepcopy(current.data)}`, appended and made current. -/
def add_file (s : CueData) (path ftype : List Char) : CueData :=
  { s with
    files := s.files ++ [{ path := path, ftype := ftype, tracks := [],
                           data := dictMerge [] (currentData s) }],
    cur := .file }

/-- Model of `CueData.add_track`: a new `TrackContext` under `_current_file`
(`AttributeError` when no `FILE` was seen), seeded with
`{**_default, **deepcopy(file.data)}`, then `add('TRACK_NUM', str(num))`,
appended to the file's tracks and made current. -/
def add_track (s : CueData) (num : Int) (dtype : List Char) :
    Except PyErr CueData :=
  match s.files.getLast? with
  | none => .error .attributeError
  | some f =>
    let tc : TrackCtx :=
      { num := num, dtype := dtype, start := 0,
        data := ctxAdd (dictMerge trackDefault f.data) "TRACK_NUM".data (toString num).data }
    .ok { s with
          files := s.files.dropLast ++ [{ f with tracks := f.tracks ++ [tc] }],
          cur := .track }

/-- Model of `CueData.add_track_index`: `_current_track.start = pos_to_frames(pos)`
(the conversion runs first, then the attribute write fails with
`AttributeError` when no track exists). -/
def add_track_index (s : CueData) (pos : List Char) : Except PyErr CueData :=
  match pos_to_frames pos with
  | .error e => .error e
  | .ok fr =>
    match updLastTrack (fun t => { t with start := fr }) s.files with
    | some fs => .ok { s with files := fs }
    | none => .error .attributeError

/-- Model of `CueParser._unquote`: `val.strip(' "')`. -/
def unquote (l : List Char) : List Char :=
  pyStrip (fun c => c == ' ' || c == '"') l

/-- Model of `CueParser._parse_command`: split at the first space and unquote the
argument part. -/
def parse_command (cmd : List Char) : List Char × List Char :=
  let (command, args) := pyPartition ' ' cmd
  (command, unquote args)

/-- One iteration of the `CueParser.run` loop over a sheet line. -/
def runLine (s : CueData) (line : List Char) : Except PyErr CueData :=
  let (cmd, args) := parse_command line
  if cmd = "REM".data then
    let (k, v) := parse_command args
    .ok (add_context s k v)
  else if cmd = "FILE".data then
    match pyRsplit1 ' ' args with
    | some (fpath, ftype) => .ok (add_file s (unquote fpath) ftype)
    | none => .error .valueError
  else if cmd = "TRACK".data then
    let (num, dtype) := pyPartition ' ' args
    match pyInt? num with
    | some n => add_track s n dtype
    | none => .error .valueError
  else if cmd = "INDEX".data then
    let (num, pos) := pyPartition ' ' args
    if num = "01".data then
      add_track_index (add_context s "INDEX 01".data pos) pos
    else .ok s
  else .ok (add_context s cmd args)

/-- The `for line in self.lines` loop of `CueParser.run`. -/
def runFrom (s : CueData) : List (List Char) → Except PyErr CueData
  | [] => .ok s
  | l :: ls =>
    match runLine s l with
    | .error e => .error e
    | .ok s1 => runFrom s1 ls

/-- Model of `CueParser.run`: process all (pre-stripped, non-empty) sheet lines
starting from a fresh `CueData`. -/
def CueParser.run (lines : List (List Char)) : Except PyErr CueData :=
  runFrom initCueData lines

/-- The building loop over tracks: build each item in order, stopping at
the first raised exception (no partial list escapes a raised
exception). -/
def exMapM {α β : Type} (f : α → Except PyErr β) : List α → Except PyErr (List β)
  | [] => .ok []
  | a :: rest =>
    match f a with
    | .error e => .error e
    | .ok b =>
      match exMapM f rest with
      | .error e => .error e
      | .ok bs => .ok (b :: bs)

/-- Dictionary lookup `d[k]` raising `KeyError` for a missing key. -/
def dictLookup {α : Type} (d : List (List Char × α)) (k : List Char) :
    Except PyErr α :=
  match d.find? (fun kv => decide (kv.1 = k)) with
  | some kv => .ok kv.2
  | none => .error (.keyError (String.mk k))

/-- The `datacodecs` table of `FFCueSplitter.command_building`:
format suffix to (codec, output extension). -/
def datacodecs : List (List Char × (List Char × List Char)) :=
  [("wav".data, ("pcm_s16le".data, "wav".data)),
   ("wv".data, ("libwavpack".data, "wv".data)),
   ("flac".data, ("flac".data, "flac".data)),
   ("m4a".data, ("alac".data, "m4a".data)),
   ("ogg".data, ("libvorbis".data, "ogg".data)),
   ("mp3".data, ("libmp3lame".data, "mp3".data))]

/-- One ffmpeg command built by `FFCueSplitter.command_building`,
represented by its constituent arguments (the textual rendering of the
command line, including the `datetime.timedelta` formatting of
`frames_to_seconds`, is presentation glue): input file, `-ss` seek in
seconds, optional `-to` trim in seconds, metadata tags in source order,
audio codec and output file name. -/
structure Recipe where
  inputFile : List Char
  ss : ℚ
  to? : Option ℚ
  metadata : List (List Char × List Char)
  codec : List Char
  outName : List Char
  deriving DecidableEq

/-- The per-track body of the `command_building` loop: metadata dict
first (`track['TRACK']` raising `KeyError` when absent), then the seek
from `track['START']`, the optional trim from `track['END']`, the
output name `f"{track['TRACK']} - {track.get('TITLE','')}.{outext}"`,
and the duration from `track['DURATION']`. -/
def buildOne (codec outext FILE : List Char) (ntracks : Nat) (t : CSTrack) :
    Except PyErr (Recipe × ℚ) :=
  match t.TRACK with
  | none => .error (.keyError "TRACK")
  | some tn =>
    let metadata : List (List Char × List Char) :=
      [("ARTIST".data, (t.ARTIST).getD []),
       ("ALBUM".data, (t.ALBUM).getD []),
       ("TITLE".data, (t.TITLE).getD []),
       ("TRACK".data, (toString tn).data ++ '/' :: (toString ntracks).data),
       ("GENRE".data, (t.GENRE).getD []),
       ("DATE".data, (t.DATE).getD []),
       ("COMMENT".data, (t.COMMENT).getD [])]
    match t.START with
    | none => .error (.keyError "START")
    | some st =>
      match t.DURATION with
      | none => .error (.keyError "DURATION")
      | some dur =>
        .ok ({ inputFile := FILE,
               ss := (st : ℚ) / 44100,
               to? := (t.END).map (fun e => (e : ℚ) / 44100),
               metadata := metadata,
               codec := codec,
               outName := (toString tn).data ++ " - ".data
                            ++ (t.TITLE).getD [] ++ '.' :: outext }, dur)

/-- Model of `FFCueSplitter.command_building`: resolve
`codec, outext = datacodecs[format]` once, before the loop, then build
one command and one duration per track. -/
def command_building (format FILE : List Char) (tracks : List CSTrack) :
    Except PyErr (List (Recipe × ℚ)) :=
  match dictLookup datacodecs format with
  | .error e => .error e
  | .ok (codec, outext) =>
    exMapM (buildOne codec outext FILE tracks.length) tracks

/-- The `DATACODECS` table of `FFMpeg` (`ffmpeg.py`). -/
def DATACODECS : List (List Char × List Char) :=
  [("wav".data, "pcm_s16le -ar 44100".data),
   ("flac".data, "flac -ar 44100".data),
   ("ogg".data, "libvorbis -ar 44100".data),
   ("opus".data, "libopus".data),
   ("mp3".data, "libmp3lame -ar 44100".data)]

/-- Model of `os.path.splitext(sourcef)[1].replace('.', '')` for an
ordinary `name.ext` path: the text after the last dot, empty when the
name holds no dot. -/
def splitextSuffix (l : List Char) : List Char :=
  match pySplit '.' l with
  | [] => []
  | [_] => []
  | parts => (parts.getLast?).getD []

/-- Model of `FFMpeg.codec_setup`: `copy` keeps the source container and uses
`-c copy`; any other format is looked up in `DATACODECS` (`KeyError`
when unknown) and keeps the format as the output suffix. -/
def codec_setup (format sourcef : List Char) :
    Except PyErr (List Char × List Char) :=
  if format = "copy".data then
    .ok ("-c copy".data, splitextSuffix sourcef)
  else
    match dictLookup DATACODECS format with
    | .error e => .error e
    | .ok c => .ok ("-c:a ".data ++ c, format)

/-- One audio-track dict of the newer pipeline consumed by
`FFMpeg.commandargs`: `FILE`, `TRACK_NUM`, `START` and `DURATION` are
always present on resolved tracks, the tag fields may be absent. -/
structure FfTrack where
  FILE : List Char
  TRACK_NUM : Int
  START : Int
  END : Option Int := none
  DURATION : ℚ
  PERFORMER : Option (List Char) := none
  ALBUM : Option (List Char) := none
  TITLE : Option (List Char) := none
  DISCNUMBER : Option (List Char) := none
  GENRE : Option (List Char) := none
  DATE : Option (List Char) := none
  COMMENT : Option (List Char) := none
  DISCID : Option (List Char) := none
  deriving DecidableEq

/-- One recipe of `FFMpeg.commandargs`, argument list represented by its
fields as in `Recipe`; `titletrack` is the output file name
`f"{num:>02} - {TITLE}.{suffix}"`. -/
structure FfRecipe where
  inputFile : List Char
  ss : ℚ
  to? : Option ℚ
  metadata : List (List Char × List Char)
  codec : List Char
  titletrack : List Char
  duration : ℚ
  deriving DecidableEq

/-- Python `str(num).rjust(2, '0')`. -/
def rjust2 (num : Int) : List Char :=
  let s := (toString num).data
  if s.length < 2 then List.replicate (2 - s.length) '0' ++ s else s

/-- The per-track body of the `FFMpeg.commandargs` loop.  Note the codec
lookup happens here, inside the loop, for every track. -/
def ffBuildOne (format : List Char) (ntracks : Nat) (t : FfTrack) :
    Except PyErr FfRecipe :=
  match codec_setup format t.FILE with
  | .error e => .error e
  | .ok (codec, suffix) =>
    let metadata : List (List Char × List Char) :=
      [("ARTIST".data, (t.PERFORMER).getD []),
       ("ALBUM".data, (t.ALBUM).getD []),
       ("TITLE".data, (t.TITLE).getD []),
       ("TRACK".data, (toString t.TRACK_NUM).data ++ '/' :: (toString ntracks).data),
       ("DISCNUMBER".data, (t.DISCNUMBER).getD []),
       ("GENRE".data, (t.GENRE).getD []),
       ("DATE".data, (t.DATE).getD []),
       ("COMMENT".data, (t.COMMENT).getD []),
       ("DISCID".data, (t.DISCID).getD [])]
    .ok { inputFile := t.FILE,
          ss := (t.START : ℚ) / 44100,
          to? := (t.END).map (fun e => (e : ℚ) / 44100),
          metadata := metadata,
          codec := codec,
          titletrack := rjust2 t.TRACK_NUM ++ " - ".data
                          ++ (t.TITLE).getD [] ++ '.' :: suffix,
          duration := t.DURATION }

/-- Model of `FFMpeg.commandargs`: build one recipe per audio track, in order;
the loop stops at the first raised exception, so no recipe list is
returned once a track fails. -/
def commandargs (format : List Char) (tracks : List FfTrack) :
    Except PyErr (List FfRecipe) :=
  exMapM (ffBuildOne format tracks.length) tracks

/-- Setting a track's `DURATION`, the zip step of the resolver. -/
def setDur (t : CSTrack) (d : ℚ) : CSTrack := { t with DURATION := some d }

/-- Two-track demo group (starts 0 and 88200, no pre-gaps). -/
def demoTracks2 : List CSTrack := [{ START := some 0 }, { START := some 88200 }]

/-- The resolver output on `demoTracks2` with probed duration 4. -/
def demoRes2 : List CSTrack :=
  (make_end_positions_and_durations demoTracks2 4).toOption.getD []

/-- Three-track demo group of the spec's end-to-end scenario. -/
def demoTracks3 : List CSTrack :=
  [{ START := some 0 }, { START := some 88200 }, { START := some 176400 }]

/-- The resolver output on `demoTracks3` with probed duration 6. -/
def demoRes3 : List CSTrack :=
  (make_end_positions_and_durations demoTracks3 6).toOption.getD []

/-- One-track demo sheet lines, as read from a file. -/
def c7lines : List (List Char) :=
  ["FILE \"img.wav\" WAVE\n".data,
   "  TRACK 01 AUDIO\n".data,
   "    INDEX 01 00:01:00\n".data]

/-- The parsed tracks of `c7lines` with probed duration 10. -/
def c7res : List CSTrack :=
  (cuefileParser "/d".data c7lines 10).toOption.getD []

/-- Demo state: one `FILE` command processed. -/
def demoCueFile : CueData := add_file initCueData "a.wav".data "WAVE".data

/-- Demo state: `FILE` then `TRACK 01 AUDIO`. -/
def demoCueTrack : CueData :=
  (add_track demoCueFile 1 "AUDIO".data).toOption.getD demoCueFile

/-- The file context of `demoCueFile`. -/
def demoFileCtx : FileCtx :=
  (demoCueFile.files.getLast?).getD { path := [], ftype := [], data := [] }

/-- The track context of `demoCueTrack`. -/
def demoTrackCtx : TrackCtx :=
  (lastTrack? demoCueTrack.files).getD { num := 0, dtype := [], data := [] }

/-- A demo resolved audio track for the newer pipeline. -/
def demoFfTrack : FfTrack :=
  { FILE := "a.wav".data, TRACK_NUM := 1, START := 0, DURATION := 2 }

/-! Section: theorems -/

/-! Section: Frame arithmetic (claim C5) -/

/-- C5, counterexample: the conversion maps `"01:30:00"` to `3969000`
frames — `(1*60+30)*44100` — and not to the value `4016400` stated by
the specification. -/
theorem c5_counterexample :
    pos_to_frames "01:30:00".data = .ok 3969000 ∧ (3969000 : Int) ≠ 4016400 := by
  constructor
  · rfl
  · decide

/-- C5 (amended): `pos_to_frames` computes
`(MM*60+SS)*44100 + FF*(44100/75)` in exact integer arithmetic
(`44100/75 = 588` with no remainder); in particular
`"00:02:00"` maps to `88200` and `"01:30:00"` maps to `3969000`
(not `4016400`). -/
theorem c5_formula :
    (∀ (p a b c : List Char) (m s f : Int),
        pySplit ':' p = [a, b, c] → pyInt? a = some m → pyInt? b = some s →
        pyInt? c = some f →
        pos_to_frames p = .ok ((m * 60 + s) * 44100 + f * (44100 / 75))) ∧
    ((44100 : Int) / 75 = 588 ∧ 588 * 75 = 44100) ∧
    pos_to_frames "00:02:00".data = .ok 88200 ∧
    pos_to_frames "01:30:00".data = .ok 3969000 := by
  refine ⟨?_, ⟨by decide, by decide⟩, by rfl, by rfl⟩
  intro p a b c m s f hsplit ha hb hc
  simp [pos_to_frames, hsplit, opMapM, ha, hb, hc]

/-- C5, witness: the general formula clause evaluated at `"00:02:00"`. -/
theorem c5_witness :
    pos_to_frames "00:02:00".data = .ok ((0 * 60 + 2) * 44100 + 0 * ((44100 : Int) / 75)) :=
  c5_formula.1 "00:02:00".data "00".data "02".data "00".data 0 2 0
    (by decide) (by decide) (by decide) (by decide)

/-! Section: Sanitize (claim C6) -/

/-- A nonempty `dropWhile` result starts with a character failing the
predicate. -/
theorem dropWhile_head_false (p : Char → Bool) :
    ∀ (l : List Char) (a : Char) (r : List Char),
      l.dropWhile p = a :: r → p a = false := by
  intro l
  induction l with
  | nil => intro a r h; simp [List.dropWhile] at h
  | cons x xs ih =>
    intro a r h
    by_cases hx : p x
    · rw [List.dropWhile_cons_of_pos hx] at h
      exact ih a r h
    · rw [List.dropWhile_cons_of_neg hx] at h
      cases h
      simpa using hx

/-- Dropping from the left twice is dropping once. -/
theorem dropWhile_idem (p : Char → Bool) (l : List Char) :
    (l.dropWhile p).dropWhile p = l.dropWhile p := by
  cases hm : l.dropWhile p with
  | nil => rfl
  | cons a r =>
    have := dropWhile_head_false p l a r hm
    simp [List.dropWhile_cons, this]

/-- Dropping from the left on a list none of whose characters satisfy
the predicate is the identity. -/
theorem dropWhile_of_all_not {p : Char → Bool} {l : List Char}
    (h : ∀ c ∈ l, p c = false) : l.dropWhile p = l := by
  cases l with
  | nil => rfl
  | cons a r =>
    have := h a (by simp)
    simp [List.dropWhile_cons, this]

/-- Dropping from the left yields a terminal segment of the list. -/
theorem dropWhile_decomp (p : Char → Bool) :
    ∀ (l : List Char), ∃ pre, pre ++ l.dropWhile p = l := by
  intro l
  induction l with
  | nil => exact ⟨[], rfl⟩
  | cons x xs ih =>
    by_cases hx : p x
    · obtain ⟨pre, hpre⟩ := ih
      exact ⟨x :: pre, by rw [List.dropWhile_cons_of_pos hx]; simp [hpre]⟩
    · exact ⟨[], by rw [List.dropWhile_cons_of_neg hx]; rfl⟩

/-- Members of a `dropWhile` result are members of the list. -/
theorem dropWhile_sub {p : Char → Bool} {l : List Char} {c : Char}
    (h : c ∈ l.dropWhile p) : c ∈ l := by
  obtain ⟨pre, hpre⟩ := dropWhile_decomp p l
  rw [← hpre]
  exact List.mem_append_right pre h

/-- Stripping both ends twice is the same as stripping once. -/
theorem pyStrip_idem (p : Char → Bool) (l : List Char) :
    pyStrip p (pyStrip p l) = pyStrip p l := by
  unfold pyStrip
  set m := l.dropWhile p with hm
  set q := m.reverse.dropWhile p with hq
  have hA : q.reverse.dropWhile p = q.reverse := by
    cases hr : q.reverse with
    | nil => rfl
    | cons a r2 =>
      obtain ⟨pre, hpre⟩ := dropWhile_decomp p m.reverse
      have hmdec : m = a :: (r2 ++ pre.reverse) := by
        have h2 : m = q.reverse ++ pre.reverse := by
          rw [← List.reverse_append, hq, hpre, List.reverse_reverse]
        rw [h2, hr]
        simp
      have hpa : p a = false := dropWhile_head_false p l a _ (by rw [← hm, hmdec])
      simp [List.dropWhile_cons, hpa, hr]
  have hB : q.dropWhile p = q := by
    rw [hq]
    exact dropWhile_idem p m.reverse
  rw [hA, List.reverse_reverse, hB]

/-- Stripped strings only contain characters of the original string. -/
theorem pyStrip_subset {p : Char → Bool} {l : List Char} {c : Char}
    (h : c ∈ pyStrip p l) : c ∈ l := by
  unfold pyStrip at h
  rw [List.mem_reverse] at h
  have h2 := dropWhile_sub h
  rw [List.mem_reverse] at h2
  exact dropWhile_sub h2

/-- Stripping a string none of whose characters satisfy the predicate is
the identity. -/
theorem pyStrip_of_all_not {p : Char → Bool} {l : List Char}
    (h : ∀ c ∈ l, p c = false) : pyStrip p l = l := by
  unfold pyStrip
  rw [dropWhile_of_all_not h,
      dropWhile_of_all_not (fun c hc => h c (by simpa using hc)),
      List.reverse_reverse]

/-- Branch-independent normal form of `sanitize`: strip whitespace, strip
dots, filter out the platform's removed characters. -/
theorem sanitize_eq (windows : Bool) (s : String) :
    sanitize windows s =
      String.mk ((pyStrip (fun c => c == '.') (pyStrip Char.isWhitespace s.data)).filter
        (fun c => !(if windows then windowsIllegal.contains c else c == '/'))) := by
  cases windows <;> rfl

/-- C6, counterexample: `sanitize` is not idempotent — on the non-Windows
branch, `sanitize("a . ") = "a "` (stripping the trailing dot exposes a
trailing space) while a second application yields `"a"`. -/
theorem c6_counterexample :
    sanitize false (sanitize false "a . ") ≠ sanitize false "a . " := by decide

/-- C6 (amended): `sanitize` is idempotent on every string that contains
no dot and none of the characters the platform branch deletes (`/` on
the non-Windows branch, the illegal character set on the Windows
branch); on arbitrary strings idempotence fails, because stripping dots
or deleting characters can expose new trailing whitespace or dots (see
the counterexample). -/
theorem c6_idempotent_no_dot (windows : Bool) (s : String)
    (hdot : ∀ c ∈ s.data, (c == '.') = false)
    (hrem : ∀ c ∈ s.data,
      (if windows then windowsIllegal.contains c else c == '/') = false) :
    sanitize windows (sanitize windows s) = sanitize windows s := by
  obtain ⟨l⟩ := s
  have key : ∀ (x : List Char), (∀ c ∈ x, (c == '.') = false) →
      (∀ c ∈ x, (if windows then windowsIllegal.contains c else c == '/') = false) →
      sanitize windows (String.mk x) = String.mk (pyStrip Char.isWhitespace x) := by
    intro x hd hr
    rw [sanitize_eq]
    have hws : ∀ c ∈ pyStrip Char.isWhitespace x, c ∈ x :=
      fun c hc => pyStrip_subset hc
    rw [show (String.mk x).data = x from rfl,
        pyStrip_of_all_not (fun c hc => hd c (hws c hc)),
        List.filter_eq_self.2 (fun c hc => by rw [hr c (hws c hc)]; rfl)]
  have h1 : sanitize windows (String.mk l) = String.mk (pyStrip Char.isWhitespace l) :=
    key l hdot hrem
  rw [h1]
  have hsub : ∀ c ∈ pyStrip Char.isWhitespace l, c ∈ l :=
    fun c hc => pyStrip_subset hc
  rw [key (pyStrip Char.isWhitespace l)
        (fun c hc => hdot c (hsub c hc))
        (fun c hc => hrem c (hsub c hc)),
      pyStrip_idem]

/-- C6, witness: idempotence applied to the dot-free, slash-free string
`" abc "` on the non-Windows branch. -/
theorem c6_witness :
    sanitize false (sanitize false " abc ") = sanitize false " abc " :=
  c6_idempotent_no_dot false " abc " (by decide) (by decide)

/-! Section: Track-boundary resolution (claims C1 - C4) -/

/-- The resolver in terms of `setDur`. -/
theorem make_end_eq (tracks : List CSTrack) (D : ℚ) :
    make_end_positions_and_durations tracks D =
      match endsAndTimes tracks with
      | .error e => .error e
      | .ok (ts, time) => .ok (List.zipWith setDur ts (time ++ [D - time.sum])) := rfl

/-- Inversion of a successful resolver run. -/
theorem make_end_ok_decomp {tracks res : List CSTrack} {D : ℚ}
    (h : make_end_positions_and_durations tracks D = .ok res) :
    ∃ ts time, endsAndTimes tracks = .ok (ts, time) ∧
      res = List.zipWith setDur ts (time ++ [D - time.sum]) := by
  rw [make_end_eq] at h
  cases he : endsAndTimes tracks with
  | error e => rw [he] at h; exact absurd h (by simp)
  | ok p =>
    obtain ⟨ts, time⟩ := p
    rw [he] at h
    simp only [Except.ok.injEq] at h
    exact ⟨ts, time, rfl, h.symm⟩

/-- Inversion of one successful step of the per-index loop. -/
theorem endsAndTimes_cons2_ok {t u : CSTrack} {rest : List CSTrack}
    {ts : List CSTrack} {time : List ℚ}
    (h : endsAndTimes (t :: u :: rest) = .ok (ts, time)) :
    ∃ s1 s0 ts1 time1 e,
      u.START = some s1 ∧ t.START = some s0 ∧
      endsAndTimes (u :: rest) = .ok (ts1, time1) ∧
      ts = { t with END := e } :: ts1 ∧
      time = ((s1 : ℚ) - (s0 : ℚ)) / 44100 :: time1 ∧
      ((t.pre_gap = none ∧ e = some s1) ∨
       (∃ g pg, t.pre_gap = some g ∧ u.pre_gap = some pg ∧ e = some pg)) := by
  simp only [endsAndTimes] at h
  split at h
  next x1 g hpg =>
    split at h
    next x2 => simp at h
    next x2 s1 hs1 =>
      split at h
      next x3 => simp at h
      next x3 s0 hs0 =>
        split at h
        next x4 => simp at h
        next x4 pg hpg2 =>
          split at h
          next x5 e he => simp at h
          next x5 ts1 time1 heq =>
            simp only [Except.ok.injEq, Prod.mk.injEq] at h
            obtain ⟨hts, htime⟩ := h
            exact ⟨s1, s0, ts1, time1, some pg, hs1, hs0, heq, hts.symm, htime.symm,
              Or.inr ⟨g, pg, hpg, hpg2, rfl⟩⟩
  next x1 hpg =>
    split at h
    next x2 => simp at h
    next x2 s1 hs1 =>
      split at h
      next x3 => simp at h
      next x3 s0 hs0 =>
        split at h
        next x4 e he => simp at h
        next x4 ts1 time1 heq =>
          simp only [Except.ok.injEq, Prod.mk.injEq] at h
          obtain ⟨hts, htime⟩ := h
          exact ⟨s1, s0, ts1, time1, some s1, hs1, hs0, heq, hts.symm, htime.symm,
            Or.inl ⟨hpg, rfl⟩⟩

/-- Lengths produced by the per-index loop. -/
theorem endsAndTimes_length :
    ∀ (tracks : List CSTrack) {ts : List CSTrack} {time : List ℚ},
      endsAndTimes tracks = .ok (ts, time) →
      ts.length = tracks.length ∧ time.length = tracks.length - 1
  | [] => by
    intro h
    simp only [endsAndTimes, Except.ok.injEq, Prod.mk.injEq] at h
    obtain ⟨h1, h2⟩ := h
    simp [← h1, ← h2]
  | [t] => by
    intro h
    simp only [endsAndTimes, Except.ok.injEq, Prod.mk.injEq] at h
    obtain ⟨h1, h2⟩ := h
    simp [← h1, ← h2]
  | t :: u :: rest => by
    intro h
    obtain ⟨s1, s0, ts1, time1, e, hs1, hs0, heq, hts, htime, hdis⟩ :=
      endsAndTimes_cons2_ok h
    obtain ⟨l1, l2⟩ := endsAndTimes_length (u :: rest) heq
    subst hts htime
    simp only [List.length_cons] at l1 l2 ⊢
    omega

/-- The per-index loop leaves the last track unchanged. -/
theorem endsAndTimes_last :
    ∀ (tracks : List CSTrack) {ts : List CSTrack} {time : List ℚ},
      endsAndTimes tracks = .ok (ts, time) → ts.getLast? = tracks.getLast?
  | [] => by
    intro h
    simp only [endsAndTimes, Except.ok.injEq, Prod.mk.injEq] at h
    simp [← h.1]
  | [t] => by
    intro h
    simp only [endsAndTimes, Except.ok.injEq, Prod.mk.injEq] at h
    simp [← h.1]
  | t :: u :: rest => by
    intro h
    obtain ⟨s1, s0, ts1, time1, e, hs1, hs0, heq, hts, htime, hdis⟩ :=
      endsAndTimes_cons2_ok h
    have hrec := endsAndTimes_last (u :: rest) heq
    subst hts
    cases ts1 with
    | nil =>
      rw [List.getLast?_nil] at hrec
      have : (u :: rest).getLast?.isSome := by
        rw [List.getLast?_isSome]
        simp
      rw [← hrec] at this
      simp at this
    | cons t1 ts2 =>
      rw [List.getLast?_cons_cons, hrec, List.getLast?_cons_cons]

/-- Indexed characterization of the per-index loop: for every non-last
index, the time entry is the start difference over 44100, and the END
assignment depends on the track's own `pre_gap` key. -/
theorem endsAndTimes_get :
    ∀ (tracks : List CSTrack) {ts : List CSTrack} {time : List ℚ},
      endsAndTimes tracks = .ok (ts, time) →
      ∀ i : ℕ, i + 1 < tracks.length →
      ∃ ti ti1 s1 s0, tracks[i]? = some ti ∧ tracks[i + 1]? = some ti1 ∧
        ti1.START = some s1 ∧ ti.START = some s0 ∧
        time[i]? = some (((s1 : ℚ) - (s0 : ℚ)) / 44100) ∧
        (ti.pre_gap = none → ts[i]? = some { ti with END := some s1 }) ∧
        (ti.pre_gap ≠ none → ∃ pg, ti1.pre_gap = some pg ∧
           ts[i]? = some { ti with END := some pg })
  | [] => by intro h i hi; simp at hi
  | [t] => by intro h i hi; simp at hi
  | t :: u :: rest => by
    intro h i hi
    obtain ⟨s1, s0, ts1, time1, e, hs1, hs0, heq, hts, htime, hdis⟩ :=
      endsAndTimes_cons2_ok h
    cases i with
    | zero =>
      refine ⟨t, u, s1, s0, by simp, by simp, hs1, hs0, by simp [htime], ?_, ?_⟩
      · intro hnone
        rcases hdis with ⟨_, he⟩ | ⟨g, pg, hpgsome, _, _⟩
        · rw [hts, he]; simp
        · rw [hpgsome] at hnone; exact absurd hnone (by simp)
      · intro hsome
        rcases hdis with ⟨hpgnone, _⟩ | ⟨g, pg, hpgsome, hupg, he⟩
        · exact absurd hpgnone hsome
        · exact ⟨pg, hupg, by rw [hts, he]; simp⟩
    | succ j =>
      have hj : j + 1 < (u :: rest).length := by
        simp only [List.length_cons] at hi ⊢
        omega
      obtain ⟨ti, ti1, s1j, s0j, h1, h2, h3, h4, h5, h6, h7⟩ :=
        endsAndTimes_get (u :: rest) heq j hj
      refine ⟨ti, ti1, s1j, s0j, by simpa using h1, by simpa using h2, h3, h4,
        by simp [htime, h5], fun hc => by simp [hts]; simpa using h6 hc,
        fun hc => ?_⟩
      obtain ⟨pgj, hp1, hp2⟩ := h7 hc
      exact ⟨pgj, hp1, by simp [hts]; simpa using hp2⟩

/-- Mapping `DURATION` out of the zip step returns the time list. -/
theorem zipDur_map :
    ∀ (ts : List CSTrack) (ds : List ℚ), ts.length = ds.length →
      (List.zipWith setDur ts ds).map (fun t => (t.DURATION).getD 0) = ds
  | [], [], _ => rfl
  | [], d :: ds, h => by simp at h
  | t :: ts, [], h => by simp at h
  | t :: ts, d :: ds, h => by
    simp only [List.zipWith_cons_cons, List.map_cons, setDur]
    rw [zipDur_map ts ds (by simpa using h)]
    rfl

/-- Indexed form of the zip step. -/
theorem zipDur_get :
    ∀ (ts : List CSTrack) (ds : List ℚ) (i : ℕ) (t : CSTrack) (d : ℚ),
      ts[i]? = some t → ds[i]? = some d →
      (List.zipWith setDur ts ds)[i]? = some (setDur t d)
  | [], _, i, t, d, ht, hd => by simp at ht
  | _ :: _, [], i, t, d, ht, hd => by simp at hd
  | a :: ts, b :: ds, 0, t, d, ht, hd => by
    simp only [List.getElem?_cons_zero, Option.some.injEq] at ht hd
    simp [ht, hd]
  | a :: ts, b :: ds, i + 1, t, d, ht, hd => by
    simp only [List.getElem?_cons_succ] at ht hd
    simpa using zipDur_get ts ds i t d ht hd

/-- Zipping compatible append-singletons. -/
theorem zipWith_append_singleton {α β γ : Type} (f : α → β → γ) :
    ∀ (A : List α) (B : List β) (a : α) (b : β), A.length = B.length →
      List.zipWith f (A ++ [a]) (B ++ [b]) = List.zipWith f A B ++ [f a b]
  | [], [], a, b, _ => rfl
  | [], y :: B, a, b, h => by simp at h
  | x :: A, [], a, b, h => by simp at h
  | x :: A, y :: B, a, b, h => by
    simp only [List.cons_append, List.zipWith_cons_cons]
    rw [zipWith_append_singleton f A B a b (by simpa using h)]

/-- C1, counterexample: a real sheet using `INDEX 00` pre-gap markers.
After scanning and resolving with probed duration 4.0, the first track's
`END` is the second track's pre-gap frame 44100, not its `START` 88200. -/
theorem c1_counterexample :
    ((cuefileParser "/d".data
        ["FILE \"img.wav\" WAVE\n".data,
         "  TRACK 01 AUDIO\n".data,
         "    INDEX 00 00:00:00\n".data,
         "    INDEX 01 00:00:00\n".data,
         "  TRACK 02 AUDIO\n".data,
         "    INDEX 00 00:01:00\n".data,
         "    INDEX 01 00:02:00\n".data] 4).map
       (fun res => res.map (fun t => (t.END, t.START))) =
      .ok [(some 44100, some 0), (none, some 88200)]) ∧
    (44100 : Int) ≠ 88200 := by
  constructor
  · rfl
  · decide

/-- C1 (amended): for every successful resolver run and every non-last
index `i`, the resolved `END[i]` equals `START[i+1]` whenever track `i`
carries no `pre_gap` key; when track `i` has a `pre_gap` key, `END[i]`
is instead set to track `i+1`'s `pre_gap` value. -/
theorem c1_end_assignment (tracks res : List CSTrack) (D : ℚ)
    (h : make_end_positions_and_durations tracks D = .ok res)
    (i : ℕ) (hi : i + 1 < tracks.length) :
    ∃ ti ti1 ri, tracks[i]? = some ti ∧ tracks[i + 1]? = some ti1 ∧
      res[i]? = some ri ∧
      (ti.pre_gap = none → ri.END = ti1.START) ∧
      (ti.pre_gap ≠ none → ri.END = ti1.pre_gap) := by
  obtain ⟨ts, time, he, hres⟩ := make_end_ok_decomp h
  obtain ⟨l1, l2⟩ := endsAndTimes_length tracks he
  obtain ⟨ti, ti1, s1, s0, h1, h2, h3, h4, h5, h6, h7⟩ := endsAndTimes_get tracks he i hi
  have hds : (time ++ [D - time.sum])[i]? = some (((s1 : ℚ) - (s0 : ℚ)) / 44100) := by
    rw [List.getElem?_append, if_pos (by omega), h5]
  cases hpg : ti.pre_gap with
  | none =>
    have hts := h6 hpg
    refine ⟨ti, ti1, setDur { ti with END := some s1 } (((s1 : ℚ) - (s0 : ℚ)) / 44100),
      h1, h2, ?_, ?_, ?_⟩
    · rw [hres]
      exact zipDur_get ts _ i _ _ hts hds
    · intro _
      rw [h3]
      rfl
    · intro hc
      exact absurd hpg hc
  | some g =>
    obtain ⟨pg, hp1, hp2⟩ := h7 (by simp [hpg])
    refine ⟨ti, ti1, setDur { ti with END := some pg } (((s1 : ℚ) - (s0 : ℚ)) / 44100),
      h1, h2, ?_, ?_, ?_⟩
    · rw [hres]
      exact zipDur_get ts _ i _ _ hp2 hds
    · intro hc
      rw [hpg] at hc
      exact absurd hc (by simp)
    · intro _
      rw [hp1]
      rfl

/-- C1, witness: the end-assignment theorem applied to the two-track
group with starts 0 and 88200, no pre-gaps, probed duration 4. -/
theorem c1_witness :
    ∃ ti ti1 ri,
      demoTracks2[0]? = some ti ∧ demoTracks2[1]? = some ti1 ∧
      demoRes2[0]? = some ri ∧
      (ti.pre_gap = none → ri.END = ti1.START) ∧
      (ti.pre_gap ≠ none → ri.END = ti1.pre_gap) :=
  c1_end_assignment demoTracks2 demoRes2 4 (by rfl) 0 (by decide)

/-- C2, counterexample: a single-track sheet whose track starts at frame
44100 (`INDEX 01 00:01:00`) with probed duration 10.0 gets
`DURATION = 10.0`, not `10.0 - START/44100 = 9.0` as the claim states
for single-track groups. -/
theorem c2_counterexample :
    ((cuefileParser "/d".data
        ["FILE \"img.wav\" WAVE\n".data,
         "  TRACK 01 AUDIO\n".data,
         "    INDEX 01 00:01:00\n".data] 10).map
       (fun res => res.map (fun t => (t.DURATION, t.END, t.START))) =
      .ok [(some 10, none, some 44100)]) ∧
    (10 : ℚ) ≠ 10 - (44100 : ℚ) / 44100 := by
  constructor
  · have hscan : scanLinesFrom "/d".data {}
        ["FILE \"img.wav\" WAVE\n".data,
         "  TRACK 01 AUDIO\n".data,
         "    INDEX 01 00:01:00\n".data] =
        .ok { general := {}, tracks := [{ TRACK := some 1, START := some 44100 }],
              FILE := some "/d/img.wav".data } := by decide
    simp only [cuefileParser, hscan]
    norm_num [make_end_positions_and_durations, endsAndTimes, Except.map]
  · norm_num

/-- C2 (amended): the resolver never touches the last track's `END`
(leaving it absent for parser-produced tracks) and always sets
`DURATION[last] = D - Σ DURATION[i] (i < last)`; for a single-track
group that sum is empty, so the duration is `D` itself — `START[0]` is
not subtracted. -/
theorem c2_last_track (tracks res : List CSTrack) (D : ℚ)
    (h : make_end_positions_and_durations tracks D = .ok res)
    (hne : tracks ≠ []) :
    ∃ rl tl, res.getLast? = some rl ∧ tracks.getLast? = some tl ∧
      rl.END = tl.END ∧
      rl.DURATION = some (D - ((res.dropLast).map (fun t => (t.DURATION).getD 0)).sum) := by
  obtain ⟨ts, time, he, hres⟩ := make_end_ok_decomp h
  obtain ⟨l1, l2⟩ := endsAndTimes_length tracks he
  have hlast := endsAndTimes_last tracks he
  have htsne : ts ≠ [] := by
    intro hnil
    rw [hnil] at l1
    simp only [List.length_nil] at l1
    exact hne (List.length_eq_zero.1 l1.symm)
  have hdec : ts.dropLast ++ [ts.getLast htsne] = ts := List.dropLast_append_getLast htsne
  have hlen : ts.dropLast.length = time.length := by
    rw [List.length_dropLast, l1, l2]
  have hresdec : res = List.zipWith setDur ts.dropLast time ++
      [setDur (ts.getLast htsne) (D - time.sum)] := by
    rw [hres]
    conv_lhs => rw [← hdec]
    exact zipWith_append_singleton setDur ts.dropLast time _ _ hlen
  refine ⟨setDur (ts.getLast htsne) (D - time.sum), ts.getLast htsne, ?_, ?_, rfl, ?_⟩
  · rw [hresdec]
    exact List.getLast?_concat _
  · rw [← hlast]
    exact (List.getLast?_eq_getLast ts htsne).symm ▸ rfl
  · rw [hresdec, List.dropLast_concat, zipDur_map ts.dropLast time hlen]
    rfl

/-- C2, witness: the last-track theorem applied to the two-track group
with starts 0 and 88200 and probed duration 4. -/
theorem c2_witness :
    ∃ rl tl,
      demoRes2.getLast? = some rl ∧ demoTracks2.getLast? = some tl ∧
      rl.END = tl.END ∧
      rl.DURATION = some (4 - ((demoRes2.dropLast).map (fun t => (t.DURATION).getD 0)).sum) :=
  c2_last_track demoTracks2 demoRes2 4 (by rfl) (by decide)

/-- C3 (confirmed): on every successful resolver run over a nonempty
track group with probed total duration `D`, the resolved durations sum
to exactly `D` (the model computes in exact rationals, so the claimed
1e-6 floating tolerance is met with equality). -/
theorem c3_durations_sum (tracks res : List CSTrack) (D : ℚ)
    (h : make_end_positions_and_durations tracks D = .ok res)
    (hne : tracks ≠ []) :
    (res.map (fun t => (t.DURATION).getD 0)).sum = D := by
  obtain ⟨ts, time, he, hres⟩ := make_end_ok_decomp h
  obtain ⟨l1, l2⟩ := endsAndTimes_length tracks he
  have hlen : ts.length = (time ++ [D - time.sum]).length := by
    simp only [List.length_append, List.length_cons, List.length_nil, l1, l2]
    have h0 : tracks.length ≠ 0 := fun hz => hne (List.length_eq_zero.1 hz)
    omega
  rw [hres, zipDur_map ts (time ++ [D - time.sum]) hlen, List.sum_append]
  simp

/-- C3, witness: the duration-sum theorem applied to the spec's
three-track scenario (starts 0, 88200, 176400; probed duration 6). -/
theorem c3_witness :
    (demoRes3.map (fun t => (t.DURATION).getD 0)).sum = 6 :=
  c3_durations_sum demoTracks3 demoRes3 6 (by rfl) (by decide)

/-- C4, counterexample: the spec's failing scenario — starts 0, 88200,
176400 with probed duration 1.0 — resolves WITHOUT an error and returns
the non-positive duration -3.0 for the last track; no `ResolutionError`
is raised and nothing is clamped. -/
theorem c4_counterexample :
    ((cuefileParser "/d".data
        ["FILE \"img.wav\" WAVE\n".data,
         "  TRACK 01 AUDIO\n".data,
         "    INDEX 01 00:00:00\n".data,
         "  TRACK 02 AUDIO\n".data,
         "    INDEX 01 00:02:00\n".data,
         "  TRACK 03 AUDIO\n".data,
         "    INDEX 01 00:04:00\n".data] 1).map
       (fun res => res.map (fun t => t.DURATION)) =
      .ok [some 2, some 2, some (-3)]) ∧ ¬ (-3 : ℚ) > 0 := by
  constructor
  · have hscan : scanLinesFrom "/d".data {}
        ["FILE \"img.wav\" WAVE\n".data,
         "  TRACK 01 AUDIO\n".data,
         "    INDEX 01 00:00:00\n".data,
         "  TRACK 02 AUDIO\n".data,
         "    INDEX 01 00:02:00\n".data,
         "  TRACK 03 AUDIO\n".data,
         "    INDEX 01 00:04:00\n".data] =
        .ok { general := {},
              tracks := [{ TRACK := some 1, START := some 0 },
                         { TRACK := some 2, START := some 88200 },
                         { TRACK := some 3, START := some 176400 }],
              FILE := some "/d/img.wav".data } := by decide
    simp only [cuefileParser, hscan]
    norm_num [make_end_positions_and_durations, endsAndTimes, Except.map]
    simp
  · norm_num

/-- C4 (amended): the resolver performs no positivity check at all — on
the three-track group with starts 0, 88200, 176400 it succeeds for EVERY
probed duration `D`, assigning `DURATION = [2, 2, D - 4]` unchanged,
non-positive values included; no error corresponding to
`ResolutionError` exists in the code. -/
theorem c4_no_positivity_check (D : ℚ) :
    ∃ r0 r1 r2,
      make_end_positions_and_durations
        [{ START := some 0 }, { START := some 88200 }, { START := some 176400 }] D =
        .ok [r0, r1, r2] ∧
      r0.DURATION = some 2 ∧ r1.DURATION = some 2 ∧ r2.DURATION = some (D - 4) := by
  refine ⟨_, _, _, rfl, ?_, ?_, ?_⟩
  · show some (((88200 : ℚ) - 0) / 44100) = some 2
    norm_num
  · show some (((176400 : ℚ) - 88200) / 44100) = some 2
    norm_num
  · show some (D - (((88200 : ℚ) - 0) / 44100 + (((176400 : ℚ) - 88200) / 44100 + 0))) =
      some (D - 4)
    norm_num

/-! Section: Sheet parsing failure modes (claim C7) -/

/-- Inversion of a successful `Except` bind. -/
theorem exBind_ok {α β : Type} {x : Except PyErr α} {f : α → Except PyErr β} {b : β}
    (h : (x >>= f) = .ok b) : ∃ a, x = .ok a ∧ f a = .ok b := by
  cases x with
  | error e => simp [Bind.bind, Except.bind] at h
  | ok a => exact ⟨a, rfl, by simpa [Bind.bind, Except.bind] using h⟩

/-- Inversion of a successful `Except.map`. -/
theorem exMap_ok {α : Type} {x : Except PyErr α} {gf : α → CFState} {stn : CFState}
    (h : x.map gf = .ok stn) : ∃ v, x = .ok v ∧ stn = gf v := by
  cases x with
  | error e => simp [Except.map] at h
  | ok v =>
    refine ⟨v, rfl, ?_⟩
    have h2 : (Except.ok (gf v) : Except PyErr CFState) = .ok stn := by
      simpa [Except.map] using h
    exact (Except.ok.inj h2).symm

/-- Inversion of a guarded scanner block. -/
theorem ifBlock_ok {c : Bool} {act : Except PyErr CFState} {st stn : CFState}
    (h : (if c then act else .ok st) = .ok stn) :
    (c = true ∧ act = .ok stn) ∨ (c = false ∧ stn = st) := by
  by_cases hc : c = true
  · rw [if_pos hc] at h
    exact Or.inl ⟨hc, h⟩
  · rw [if_neg hc] at h
    exact Or.inr ⟨by simpa using hc, (Except.ok.inj h).symm⟩

/-- The five album-level guards and the `FILE` guard never change the
collected track list. -/
theorem cfGenre_tracks {line : List Char} {st stn : CFState}
    (h : cfGenre line st = .ok stn) : stn.tracks = st.tracks := by
  unfold cfGenre at h
  rcases ifBlock_ok h with ⟨_, hact⟩ | ⟨_, hst⟩
  · obtain ⟨v, _, hstn⟩ := exMap_ok hact
    rw [hstn]
  · rw [hst]

theorem cfDate_tracks {line : List Char} {st stn : CFState}
    (h : cfDate line st = .ok stn) : stn.tracks = st.tracks := by
  unfold cfDate at h
  rcases ifBlock_ok h with ⟨_, hact⟩ | ⟨_, hst⟩
  · obtain ⟨v, _, hstn⟩ := exMap_ok hact
    rw [hstn]
  · rw [hst]

theorem cfComment_tracks {line : List Char} {st stn : CFState}
    (h : cfComment line st = .ok stn) : stn.tracks = st.tracks := by
  unfold cfComment at h
  rcases ifBlock_ok h with ⟨_, hact⟩ | ⟨_, hst⟩
  · obtain ⟨v, _, hstn⟩ := exMap_ok hact
    rw [hstn]
  · rw [hst]

theorem cfPerformer_tracks {line : List Char} {st stn : CFState}
    (h : cfPerformer line st = .ok stn) : stn.tracks = st.tracks := by
  unfold cfPerformer at h
  rcases ifBlock_ok h with ⟨_, hact⟩ | ⟨_, hst⟩
  · obtain ⟨v, _, hstn⟩ := exMap_ok hact
    rw [hstn]
  · rw [hst]

theorem cfTitle_tracks {line : List Char} {st stn : CFState}
    (h : cfTitle line st = .ok stn) : stn.tracks = st.tracks := by
  unfold cfTitle at h
  rcases ifBlock_ok h with ⟨_, hact⟩ | ⟨_, hst⟩
  · obtain ⟨v, _, hstn⟩ := exMap_ok hact
    rw [hstn]
  · rw [hst]

theorem cfFile_tracks {dirname line : List Char} {st stn : CFState}
    (h : cfFile dirname line st = .ok stn) : stn.tracks = st.tracks := by
  unfold cfFile at h
  rcases ifBlock_ok h with ⟨_, hact⟩ | ⟨_, hst⟩
  · obtain ⟨v, _, hstn⟩ := exMap_ok hact
    rw [hstn]
  · rw [hst]

/-- Without a `  TRACK ` guard match the track block leaves the state
alone. -/
theorem cfTrack_skip {line : List Char} {st stn : CFState}
    (h : cfTrack line st = .ok stn)
    (hpre : hasPre "  TRACK ".data line = false) : stn = st := by
  unfold cfTrack at h
  rcases ifBlock_ok h with ⟨hc, _⟩ | ⟨_, hst⟩
  · rw [hpre] at hc
    exact absurd hc (by simp)
  · exact hst

/-- The four track-level guards preserve an empty track list (on an
empty list they can only succeed by not firing). -/
theorem cfTrkTitle_nil {line : List Char} {st stn : CFState}
    (h : cfTrkTitle line st = .ok stn) (hnil : st.tracks = []) : stn.tracks = [] := by
  unfold cfTrkTitle at h
  rcases ifBlock_ok h with ⟨_, hact⟩ | ⟨_, hst⟩
  · cases hv : quoteField1 line with
    | error e => rw [hv] at hact; exact absurd hact (by simp)
    | ok v => rw [hv, hnil] at hact; simp [updLast] at hact
  · rw [hst]
    exact hnil

theorem cfTrkPerformer_nil {line : List Char} {st stn : CFState}
    (h : cfTrkPerformer line st = .ok stn) (hnil : st.tracks = []) : stn.tracks = [] := by
  unfold cfTrkPerformer at h
  rcases ifBlock_ok h with ⟨_, hact⟩ | ⟨_, hst⟩
  · cases hv : quoteField1 line with
    | error e => rw [hv] at hact; exact absurd hact (by simp)
    | ok v => rw [hv, hnil] at hact; simp [updLast] at hact
  · rw [hst]
    exact hnil

theorem cfTrkIndex00_nil {line : List Char} {st stn : CFState}
    (h : cfTrkIndex00 line st = .ok stn) (hnil : st.tracks = []) : stn.tracks = [] := by
  unfold cfTrkIndex00 at h
  rcases ifBlock_ok h with ⟨_, hact⟩ | ⟨_, hst⟩
  · cases hv : pos_to_frames_line line with
    | error e => rw [hv] at hact; exact absurd hact (by simp)
    | ok v => rw [hv, hnil] at hact; simp [updLast] at hact
  · rw [hst]
    exact hnil

theorem cfTrkIndex01_nil {line : List Char} {st stn : CFState}
    (h : cfTrkIndex01 line st = .ok stn) (hnil : st.tracks = []) : stn.tracks = [] := by
  unfold cfTrkIndex01 at h
  rcases ifBlock_ok h with ⟨_, hact⟩ | ⟨_, hst⟩
  · cases hv : pos_to_frames_line line with
    | error e => rw [hv] at hact; exact absurd hact (by simp)
    | ok v => rw [hv, hnil] at hact; simp [updLast] at hact
  · rw [hst]
    exact hnil

/-- A line without the `  TRACK ` guard cannot create the first track. -/
theorem scanLine_tracks_nil {dirname : List Char} {st : CFState} {line : List Char}
    {st1 : CFState}
    (h : scanLine dirname st line = .ok st1)
    (hpre : hasPre "  TRACK ".data line = false)
    (hnil : st.tracks = []) : st1.tracks = [] := by
  unfold scanLine at h
  obtain ⟨a10, h, hb11⟩ := exBind_ok h
  obtain ⟨a9, h, hb10⟩ := exBind_ok h
  obtain ⟨a8, h, hb9⟩ := exBind_ok h
  obtain ⟨a7, h, hb8⟩ := exBind_ok h
  obtain ⟨a6, h, hb7⟩ := exBind_ok h
  obtain ⟨a5, h, hb6⟩ := exBind_ok h
  obtain ⟨a4, h, hb5⟩ := exBind_ok h
  obtain ⟨a3, h, hb4⟩ := exBind_ok h
  obtain ⟨a2, h, hb3⟩ := exBind_ok h
  obtain ⟨a1, hb1, hb2⟩ := exBind_ok h
  have n1 : a1.tracks = [] := by rw [cfGenre_tracks hb1]; exact hnil
  have n2 : a2.tracks = [] := by rw [cfDate_tracks hb2]; exact n1
  have n3 : a3.tracks = [] := by rw [cfComment_tracks hb3]; exact n2
  have n4 : a4.tracks = [] := by rw [cfPerformer_tracks hb4]; exact n3
  have n5 : a5.tracks = [] := by rw [cfTitle_tracks hb5]; exact n4
  have n6 : a6.tracks = [] := by rw [cfFile_tracks hb6]; exact n5
  have n7 : a7.tracks = [] := by rw [cfTrack_skip hb7 hpre]; exact n6
  have n8 : a8.tracks = [] := cfTrkTitle_nil hb8 n7
  have n9 : a9.tracks = [] := cfTrkPerformer_nil hb9 n8
  have n10 : a10.tracks = [] := cfTrkIndex00_nil hb10 n9
  exact cfTrkIndex01_nil hb11 n10

/-- Scanning lines none of which match `  TRACK ` collects no tracks. -/
theorem scanLinesFrom_tracks_nil {dirname : List Char} :
    ∀ (lines : List (List Char)) (st st1 : CFState),
      scanLinesFrom dirname st lines = .ok st1 →
      (∀ l ∈ lines, hasPre "  TRACK ".data l = false) →
      st.tracks = [] → st1.tracks = []
  | [] => by
    intro st st1 h _ hnil
    unfold scanLinesFrom at h
    rw [← Except.ok.inj h]
    exact hnil
  | l :: ls => by
    intro st st1 h hall hnil
    unfold scanLinesFrom at h
    cases hline : scanLine dirname st l with
    | error e => rw [hline] at h; exact absurd h (by simp)
    | ok st2 =>
      rw [hline] at h
      exact scanLinesFrom_tracks_nil ls st2 st1 h (fun x hx => hall x (by simp [hx]))
        (scanLine_tracks_nil hline (hall l (by simp)) hnil)

/-- The resolver returns as many tracks as it is given. -/
theorem make_end_length {tracks res : List CSTrack} {D : ℚ}
    (h : make_end_positions_and_durations tracks D = .ok res) :
    res.length = tracks.length := by
  obtain ⟨ts, time, he, hres⟩ := make_end_ok_decomp h
  obtain ⟨l1, l2⟩ := endsAndTimes_length tracks he
  rw [hres, List.length_zipWith, List.length_append]
  simp only [List.length_cons, List.length_nil]
  omega

/-- C7, counterexample: `CueParser.run` raises no `ParserError` on a
sheet with zero `TRACK` commands — it returns a parse tree whose file
(and hence track) list is empty. -/
theorem c7_counterexample :
    (CueParser.run ["PERFORMER \"Abc\"".data]).map (fun c => c.files) = .ok [] := by
  decide

/-- C7 (amended): `cuefile_parser` raises `ParserError` exactly when its
scan finishes with zero collected tracks, and a successful parse always
returns a nonempty track list containing at least one `  TRACK ` line;
`CueParser.run`, however, raises no `ParserError` at all: a `TRACK` or
`INDEX 01` command before any `FILE`/`TRACK` fails with an attribute
error (`AttributeError` on `None`), not `ParseError`, and a trackless
sheet is returned as an empty parse tree (see the counterexample). -/
theorem c7_empty_and_prefile :
    (∀ (dn : List Char) (lines : List (List Char)) (D : ℚ) (res : List CSTrack),
        cuefileParser dn lines D = .ok res →
        res ≠ [] ∧ ∃ l ∈ lines, hasPre "  TRACK ".data l = true) ∧
    (∀ (dn : List Char) (lines : List (List Char)) (D : ℚ) (st : CFState),
        scanLinesFrom dn {} lines = .ok st → st.tracks = [] →
        cuefileParser dn lines D = .error .parserError) ∧
    CueParser.run ["TRACK 01 AUDIO".data] = .error .attributeError ∧
    CueParser.run ["INDEX 01 00:00:00".data] = .error .attributeError := by
  refine ⟨?_, ?_, by decide, by decide⟩
  · intro dn lines D res h
    unfold cuefileParser at h
    cases hscan : scanLinesFrom dn {} lines with
    | error e => rw [hscan] at h; exact absurd h (by simp)
    | ok st =>
      rw [hscan] at h
      dsimp only at h
      by_cases htr : st.tracks = []
      · rw [if_pos htr] at h
        exact absurd h (by simp)
      · rw [if_neg htr] at h
        constructor
        · cases hf : st.FILE with
          | none => rw [hf] at h; exact absurd h (by simp)
          | some f =>
            rw [hf] at h
            intro hres
            rw [hres] at h
            have := make_end_length h
            simp only [List.length_nil] at this
            exact htr (List.length_eq_zero.1 this.symm)
        · by_contra hno
          push_neg at hno
          exact htr (scanLinesFrom_tracks_nil lines {} st hscan
            (fun l hl => by simpa using hno l hl) rfl)
  · intro dn lines D st hscan htr
    unfold cuefileParser
    rw [hscan]
    dsimp only
    rw [if_pos htr]

/-- C7, witness: the one-track sheet parses to a nonempty result with a
`  TRACK ` line, and the empty sheet raises `ParserError`. -/
theorem c7_witness :
    (c7res ≠ [] ∧ ∃ l ∈ c7lines, hasPre "  TRACK ".data l = true) ∧
    cuefileParser "/d".data [] 10 = .error .parserError :=
  ⟨c7_empty_and_prefile.1 "/d".data c7lines 10 c7res (by rfl),
   c7_empty_and_prefile.2.1 "/d".data [] 10 {} (by rfl) rfl⟩

/-! Section: Metadata contexts (claims C9 and C10) -/

/-- Lookup after upsert of the same key returns the new value. -/
theorem dictGet_upsert_self :
    ∀ (d : Assoc) (k : List Char) (v : Option (List Char)),
      dictGet (dictUpsert d k v) k = some v
  | [], k, v => by simp [dictUpsert, dictGet, List.find?]
  | kv :: rest, k, v => by
    by_cases h : kv.1 = k
    · simp [dictUpsert, if_pos h, dictGet, List.find?]
    · rw [dictUpsert, if_neg h]
      show dictGet (kv :: dictUpsert rest k v) k = some v
      rw [dictGet, List.find?_cons_of_neg _ (by simpa using h)]
      exact dictGet_upsert_self rest k v

/-- Lookup after upsert of a different key is unchanged. -/
theorem dictGet_upsert_ne :
    ∀ (d : Assoc) (k k1 : List Char) (v : Option (List Char)), k1 ≠ k →
      dictGet (dictUpsert d k v) k1 = dictGet d k1
  | [], k, k1, v, hne => by
    have hd : decide (k = k1) = false := by
      simp only [decide_eq_false_iff_not]
      exact fun hc => hne hc.symm
    simp [dictUpsert, dictGet, List.find?, hd]
  | kv :: rest, k, k1, v, hne => by
    by_cases h : kv.1 = k
    · rw [dictUpsert, if_pos h, dictGet, dictGet,
          List.find?_cons_of_neg _ (by simp only [decide_eq_true_eq]; exact fun hc => hne hc.symm),
          List.find?_cons_of_neg _ (by
            simp only [decide_eq_true_eq]
            intro hc
            exact hne (by rw [← hc]; exact h))]
    · rw [dictUpsert, if_neg h]
      by_cases h1 : kv.1 = k1
      · rw [dictGet, dictGet, List.find?_cons_of_pos _ (by simpa using h1),
            List.find?_cons_of_pos _ (by simpa using h1)]
      · rw [dictGet, dictGet, List.find?_cons_of_neg _ (by simpa using h1),
            List.find?_cons_of_neg _ (by simpa using h1)]
        exact dictGet_upsert_ne rest k k1 v hne

/-- Helper: `updLast` replaces exactly the last element. -/
theorem updLast_spec {α : Type} (g : α → α) :
    ∀ (ts : List α) (t : α), ts.getLast? = some t →
      updLast g ts = some (ts.dropLast ++ [g t])
  | [], t, h => by simp at h
  | [x], t, h => by
    have hx : x = t := by simpa using h
    simp [updLast, hx]
  | x :: y :: rest, t, h => by
    rw [List.getLast?_cons_cons] at h
    rw [updLast, updLast_spec g (y :: rest) t h]
    simp

/-- Helper: `updLast` fails exactly on the empty list. -/
theorem updLast_none {α : Type} (g : α → α) :
    ∀ (ts : List α), updLast g ts = none ↔ ts = []
  | [] => by simp [updLast]
  | [x] => by simp [updLast]
  | x :: y :: rest => by
    rw [updLast]
    simp only [Option.map_eq_none', List.cons_ne_nil, iff_false]
    rw [updLast_none g (y :: rest)]
    simp

/-- Helper: `updLastTrack` fails exactly when no track exists anywhere. -/
theorem updLastTrack_none (g : TrackCtx → TrackCtx) :
    ∀ (fs : List FileCtx), updLastTrack g fs = none ↔ lastTrack? fs = none
  | [] => by simp [updLastTrack, lastTrack?]
  | f :: rest => by
    simp only [updLastTrack, lastTrack?]
    cases hrec : updLastTrack g rest with
    | some rest1 =>
      have hlt : lastTrack? rest ≠ none := by
        intro hc
        have h0 := (updLastTrack_none g rest).2 hc
        rw [h0] at hrec
        cases hrec
      cases hlast : lastTrack? rest with
      | none => exact absurd hlast hlt
      | some t => simp
    | none =>
      have hlt : lastTrack? rest = none := (updLastTrack_none g rest).1 hrec
      rw [hlt]
      cases hul : updLast g f.tracks with
      | some ts =>
        have hne : f.tracks ≠ [] := by
          intro hc
          rw [hc] at hul
          simp [updLast] at hul
        simp [List.getLast?_eq_none_iff, hne]
      | none =>
        have hnil : f.tracks = [] := (updLast_none g f.tracks).1 hul
        simp [hnil]

/-- Updating the current track succeeds whenever a track exists and the
updated state's current track is the image of the old one. -/
theorem updLastTrack_spec (g : TrackCtx → TrackCtx) :
    ∀ (fs : List FileCtx) (t : TrackCtx), lastTrack? fs = some t →
      ∃ fs1, updLastTrack g fs = some fs1 ∧ lastTrack? fs1 = some (g t)
  | [], t, h => by simp [lastTrack?] at h
  | f :: rest, t, h => by
    simp only [lastTrack?] at h
    cases hlt : lastTrack? rest with
    | some t1 =>
      rw [hlt] at h
      obtain rfl : t1 = t := by simpa using h
      obtain ⟨rest1, hupd, hlast1⟩ := updLastTrack_spec g rest t1 hlt
      refine ⟨f :: rest1, ?_, ?_⟩
      · simp [updLastTrack, hupd]
      · simp [lastTrack?, hlast1]
    | none =>
      rw [hlt] at h
      have h2 : f.tracks.getLast? = some t := by simpa using h
      have hupd0 : updLastTrack g rest = none := (updLastTrack_none g rest).2 hlt
      refine ⟨{ f with tracks := f.tracks.dropLast ++ [g t] } :: rest, ?_, ?_⟩
      · simp [updLastTrack, hupd0, updLast_spec g f.tracks t h2]
      · simp only [lastTrack?, hlt]
        exact List.getLast?_concat _

/-- Updating the current track never changes any file's metadata dict. -/
theorem updLastTrack_map_data (g : TrackCtx → TrackCtx) :
    ∀ (fs fs1 : List FileCtx), updLastTrack g fs = some fs1 →
      fs1.map (fun f => f.data) = fs.map (fun f => f.data)
  | [], fs1, h => by simp [updLastTrack] at h
  | f :: rest, fs1, h => by
    simp only [updLastTrack] at h
    cases hrec : updLastTrack g rest with
    | some rest1 =>
      rw [hrec] at h
      have h2 : f :: rest1 = fs1 := by simpa using h
      rw [← h2]
      simp only [List.map_cons]
      rw [updLastTrack_map_data g rest rest1 hrec]
    | none =>
      rw [hrec] at h
      cases hul : updLast g f.tracks with
      | some ts =>
        rw [hul] at h
        have h2 : ({ f with tracks := ts } : FileCtx) :: rest = fs1 := by simpa using h
        rw [← h2]
        simp
      | none =>
        rw [hul] at h
        simp at h

/-- Helper: `updLastFile` replaces exactly the last file. -/
theorem updLastFile_spec (g : FileCtx → FileCtx) :
    ∀ (fs : List FileCtx) (f : FileCtx), fs.getLast? = some f →
      updLastFile g fs = fs.dropLast ++ [g f]
  | [], f, h => by simp at h
  | [x], f, h => by
    have hx : x = f := by simpa using h
    simp [updLastFile, hx]
  | x :: y :: rest, f, h => by
    rw [List.getLast?_cons_cons] at h
    rw [updLastFile, updLastFile_spec g (y :: rest) f h]
    simp

/-- Helper: `updLastFile` with a data-only update never changes any track
list. -/
theorem updLastFile_map_tracks (g : FileCtx → FileCtx)
    (htr : ∀ f, (g f).tracks = f.tracks) :
    ∀ (fs : List FileCtx),
      (updLastFile g fs).map (fun f => f.tracks) = fs.map (fun f => f.tracks)
  | [] => rfl
  | [f] => by simp [updLastFile, htr f]
  | f :: f2 :: rest => by
    rw [updLastFile, List.map_cons, List.map_cons,
        updLastFile_map_tracks g htr (f2 :: rest)]

/-- The last created track after appending a file with tracks. -/
theorem lastTrack?_concat_some :
    ∀ (xs : List FileCtx) (f : FileCtx) (tc : TrackCtx),
      f.tracks.getLast? = some tc → lastTrack? (xs ++ [f]) = some tc
  | [], f, tc, h => by simp [lastTrack?, h]
  | x :: xs, f, tc, h => by
    simp [List.cons_append, lastTrack?, lastTrack?_concat_some xs f tc h]

/-- Inversion of a successful `add_track`. -/
theorem add_track_ok {s : CueData} {n : Int} {d : List Char} {s1 : CueData}
    (h : add_track s n d = .ok s1) :
    ∃ f, s.files.getLast? = some f ∧
      s1 = { s with
             files := s.files.dropLast ++
               [{ f with tracks := f.tracks ++
                   [{ num := n, dtype := d, start := 0,
                      data := ctxAdd (dictMerge trackDefault f.data) "TRACK_NUM".data
                                (toString n).data }] }],
             cur := .track } := by
  unfold add_track at h
  cases hl : s.files.getLast? with
  | none => rw [hl] at h; simp at h
  | some f =>
    rw [hl] at h
    refine ⟨f, rfl, ?_⟩
    simpa using h.symm

/-- C9 (confirmed): on the Disc (meta) context the key `TITLE` is
remapped to `ALBUM` — a disc-level `TITLE` command sets `ALBUM` and
leaves `TITLE` untouched, while any other key is upserted as given; on
the current SourceFile or Track context every key, `TITLE` included, is
upserted without remapping. -/
theorem c9_title_remap :
    (∀ (s : CueData) (v : List Char), s.cur = .meta →
        dictGet (add_context s "TITLE".data v).meta "ALBUM".data = some (some v) ∧
        dictGet (add_context s "TITLE".data v).meta "TITLE".data = dictGet s.meta "TITLE".data) ∧
    (∀ (s : CueData) (k v : List Char), s.cur = .meta → k ≠ "TITLE".data →
        (add_context s k v).meta = dictUpsert s.meta k (some v)) ∧
    (∀ (s : CueData) (k v : List Char) (f : FileCtx), s.cur = .file →
        s.files.getLast? = some f →
        (add_context s k v).files.getLast? =
          some { f with data := dictUpsert f.data k (some v) }) ∧
    (∀ (s : CueData) (k v : List Char) (t : TrackCtx), s.cur = .track →
        lastTrack? s.files = some t →
        lastTrack? (add_context s k v).files =
          some { t with data := dictUpsert t.data k (some v) }) := by
  refine ⟨?_, ?_, ?_, ?_⟩
  · intro s v hcur
    simp only [add_context, hcur, metaAdd, if_pos rfl, ctxAdd]
    exact ⟨dictGet_upsert_self s.meta "ALBUM".data (some v),
      dictGet_upsert_ne s.meta "ALBUM".data "TITLE".data (some v) (by decide)⟩
  · intro s k v hcur hk
    simp only [add_context, hcur, metaAdd, if_neg hk, ctxAdd]
  · intro s k v f hcur hf
    simp only [add_context, hcur, ctxAdd]
    rw [updLastFile_spec _ s.files f hf, List.getLast?_concat]
  · intro s k v t hcur ht
    simp only [add_context, hcur, ctxAdd]
    obtain ⟨fs1, hupd, hlast⟩ :=
      updLastTrack_spec (fun t => { t with data := dictUpsert t.data k (some v) }) s.files t ht
    rw [hupd]
    exact hlast

/-- C9, witness: the remap clauses evaluated on the initial context, a
state after `FILE` and a state after `TRACK`. -/
theorem c9_witness :
    (dictGet (add_context initCueData "TITLE".data "X".data).meta "ALBUM".data =
        some (some "X".data) ∧
      dictGet (add_context initCueData "TITLE".data "X".data).meta "TITLE".data =
        dictGet initCueData.meta "TITLE".data) ∧
    (add_context initCueData "GENRE".data "Rock".data).meta =
      dictUpsert initCueData.meta "GENRE".data (some "Rock".data) ∧
    (add_context demoCueFile "TITLE".data "X".data).files.getLast? =
      some { demoFileCtx with data := dictUpsert demoFileCtx.data "TITLE".data (some "X".data) } ∧
    lastTrack? (add_context demoCueTrack "TITLE".data "X".data).files =
      some { demoTrackCtx with
             data := dictUpsert demoTrackCtx.data "TITLE".data (some "X".data) } :=
  ⟨c9_title_remap.1 initCueData "X".data rfl,
   c9_title_remap.2.1 initCueData "GENRE".data "Rock".data rfl (by decide),
   c9_title_remap.2.2.1 demoCueFile "TITLE".data "X".data demoFileCtx rfl rfl,
   c9_title_remap.2.2.2 demoCueTrack "TITLE".data "X".data demoTrackCtx rfl rfl⟩

/-- C10, counterexample: a second `FILE` command arriving while the
current context is a Track seeds the new SourceFile from that TRACK's
map, not from the Disc snapshot — the new file's dict carries
`TRACK_NUM` (and the track's default `TITLE`), which the Disc context
never holds. -/
theorem c10_counterexample :
    (CueParser.run ["FILE \"a.wav\" WAVE".data, "TRACK 01 AUDIO".data,
                    "FILE \"b.wav\" WAVE".data]).map
      (fun c => (dictGet c.meta "TRACK_NUM".data,
                 c.files.map (fun f => dictGet f.data "TRACK_NUM".data))) =
    .ok (none, [none, some (some "1".data)]) := by decide

/-- C10 (amended): every child context is seeded with a value copy of
the CURRENT context's map at creation time (the Disc's map for the first
SourceFile, but a Track's map for a SourceFile created after a TRACK;
always the owning file's map, merged over the track default, for a
Track), and afterwards the context maps are fully isolated: adds on the
current child never change the Disc map, any file's map (when the
current context is a track) or any track list (when it is a file), and
creating a child never mutates any existing map. -/
theorem c10_snapshot_isolation :
    (∀ (s : CueData) (p t : List Char),
        (add_file s p t).meta = s.meta ∧
        (add_file s p t).files = s.files ++
          [{ path := p, ftype := t, tracks := [],
             data := dictMerge [] (currentData s) }]) ∧
    (∀ (s : CueData) (n : Int) (d : List Char) (s1 : CueData), add_track s n d = .ok s1 →
        s1.meta = s.meta ∧
        s1.files.map (fun f => f.data) = s.files.map (fun f => f.data) ∧
        ∃ f, s.files.getLast? = some f ∧
          lastTrack? s1.files = some
            { num := n, dtype := d, start := 0,
              data := ctxAdd (dictMerge trackDefault f.data) "TRACK_NUM".data
                        (toString n).data }) ∧
    (∀ (s : CueData) (k v : List Char), s.cur ≠ .meta →
        (add_context s k v).meta = s.meta) ∧
    (∀ (s : CueData) (k v : List Char), s.cur = .meta →
        (add_context s k v).files = s.files) ∧
    (∀ (s : CueData) (k v : List Char), s.cur = .file →
        (add_context s k v).meta = s.meta ∧
        (add_context s k v).files.map (fun f => f.tracks) =
          s.files.map (fun f => f.tracks)) ∧
    (∀ (s : CueData) (k v : List Char), s.cur = .track →
        (add_context s k v).meta = s.meta ∧
        (add_context s k v).files.map (fun f => f.data) =
          s.files.map (fun f => f.data)) := by
  refine ⟨fun s p t => ⟨rfl, rfl⟩, ?_, ?_, ?_, ?_, ?_⟩
  · intro s n d s1 h
    obtain ⟨f, hf, hs1⟩ := add_track_ok h
    subst hs1
    refine ⟨rfl, ?_, f, hf, ?_⟩
    · have hdec : s.files.dropLast ++ [f] = s.files :=
        List.dropLast_append_getLast? f (by simp [hf])
      conv_rhs => rw [← hdec]
      simp
    · exact lastTrack?_concat_some _ _ _ (List.getLast?_concat _)
  · intro s k v hcur
    cases hc : s.cur with
    | meta => exact absurd hc hcur
    | file => simp only [add_context, hc]
    | track => simp only [add_context, hc]
  · intro s k v hcur
    simp only [add_context, hcur]
  · intro s k v hcur
    refine ⟨by simp only [add_context, hcur], ?_⟩
    simp only [add_context, hcur]
    exact updLastFile_map_tracks
      (fun f => { f with data := ctxAdd f.data k v }) (fun f => rfl) s.files
  · intro s k v hcur
    refine ⟨by simp only [add_context, hcur], ?_⟩
    simp only [add_context, hcur]
    cases hupd : updLastTrack (fun t => { t with data := ctxAdd t.data k v }) s.files with
    | none => rfl
    | some fs1 =>
      simp only [Option.getD_some]
      exact updLastTrack_map_data _ s.files fs1 hupd

/-- C10, witness: the snapshot and isolation clauses evaluated on the
demo states. -/
theorem c10_witness :
    ((add_file demoCueTrack "b.wav".data "WAVE".data).meta = demoCueTrack.meta ∧
      (add_file demoCueTrack "b.wav".data "WAVE".data).files = demoCueTrack.files ++
        [{ path := "b.wav".data, ftype := "WAVE".data, tracks := [],
           data := dictMerge [] (currentData demoCueTrack) }]) ∧
    ((add_context demoCueTrack "X".data "Y".data).meta = demoCueTrack.meta) ∧
    ((add_context demoCueFile "X".data "Y".data).meta = demoCueFile.meta ∧
      (add_context demoCueFile "X".data "Y".data).files.map (fun f => f.tracks) =
        demoCueFile.files.map (fun f => f.tracks)) ∧
    ((add_context demoCueTrack "X".data "Y".data).meta = demoCueTrack.meta ∧
      (add_context demoCueTrack "X".data "Y".data).files.map (fun f => f.data) =
        demoCueTrack.files.map (fun f => f.data)) :=
  ⟨c10_snapshot_isolation.1 demoCueTrack "b.wav".data "WAVE".data,
   c10_snapshot_isolation.2.2.1 demoCueTrack "X".data "Y".data (by decide),
   c10_snapshot_isolation.2.2.2.2.1 demoCueFile "X".data "Y".data rfl,
   c10_snapshot_isolation.2.2.2.2.2 demoCueTrack "X".data "Y".data rfl⟩

/-! Section: Recipe building and codec lookup (claim C8) -/

/-- C8, counterexample: `FFMpeg.commandargs` with an unknown codec key
and an empty track list returns an empty recipe list WITHOUT any error —
the codec lookup happens per track inside the loop, so the failure the
claim describes is not "detected once for the whole run". -/
theorem c8_counterexample :
    commandargs "xyz".data [] = .ok [] ∧
    dictLookup DATACODECS "xyz".data = .error (.keyError "xyz") := by
  exact ⟨rfl, by decide⟩

/-- C8 (amended): `command_building` looks the codec key up once,
before its loop, so an unknown key fails the whole run (even with zero
tracks) before any recipe is built, raising the lookup's `KeyError` (no
`ConfigurationError` class exists); `FFMpeg.commandargs` instead looks
the key up per track inside the loop: with at least one track it fails
on the first track before emitting any recipe, but with zero tracks an
unknown key is never detected and an empty recipe list is returned. -/
theorem c8_codec_lookup :
    (∀ (format FILE : List Char) (tracks : List CSTrack) (e : PyErr),
        dictLookup datacodecs format = .error e →
        command_building format FILE tracks = .error e) ∧
    (∀ (format : List Char) (t : FfTrack) (tracks : List FfTrack) (e : PyErr),
        format ≠ "copy".data → dictLookup DATACODECS format = .error e →
        commandargs format (t :: tracks) = .error e) ∧
    (∀ (format : List Char), commandargs format [] = .ok []) := by
  refine ⟨?_, ?_, fun format => rfl⟩
  · intro format FILE tracks e h
    simp only [command_building, h]
  · intro format t tracks e hc h
    simp only [commandargs, exMapM, ffBuildOne, codec_setup, if_neg hc, h]

/-- C8, witness: the lookup clauses evaluated at the unknown key
`"xyz"`. -/
theorem c8_witness :
    command_building "xyz".data "f.wav".data [] = .error (.keyError "xyz") ∧
    commandargs "xyz".data [demoFfTrack] = .error (.keyError "xyz") ∧
    commandargs "xyz".data [] = .ok [] :=
  ⟨c8_codec_lookup.1 "xyz".data "f.wav".data [] (.keyError "xyz") (by decide),
   c8_codec_lookup.2.1 "xyz".data demoFfTrack [] (.keyError "xyz") (by decide) (by decide),
   c8_codec_lookup.2.2 "xyz".data⟩

end FFcue
